import Mathlib

/-!
Verification of the auto-hunter-ai structured-extraction and reconciliation
pipeline: a shallow embedding of `services/car_search_system.py`,
`services/offer_analysis_service.py` and `utils/ai.py`, with the external
HTTP transport and the external JSON parser (`json.loads`) passed in as
explicit parameters.
-/

/-- A decoded JSON value, the target of the external parser `json.loads`.
Structured-call results, search filters and offer assessments are all
values of this type in the source (plain Python dicts/lists). -/
inductive JVal where
  | null : JVal
  | str : String → JVal
  | num : Int → JVal
  | arr : List JVal → JVal
  | obj : List (String × JVal) → JVal
  deriving Repr, BEq

/-- A car listing as handled by the ranking pipeline (a Python dict in the
source). `ai_description` is the only field the ranker ever writes. -/
structure Listing where
  title : String
  price : Int
  year : Int
  km : Int
  fuel : String
  ai_description : Option String
  deriving Repr, DecidableEq, Inhabited

/-- The annotation-free part of a listing, used to state that ranking
changes nothing but `ai_description`. -/
structure ListingCore where
  title : String
  price : Int
  year : Int
  km : Int
  fuel : String
  deriving Repr, DecidableEq, Inhabited

/-- Projection of a listing to its annotation-free fields. -/
def Listing.core (c : Listing) : ListingCore :=
  ⟨c.title, c.price, c.year, c.km, c.fuel⟩

/-- One entry of the model's `ranked_cars` array, decoded against the
response schema of `rank_and_annotate`: both keys may be absent
(`item.get` in the source), and `original_id` may be any integer. -/
structure ModelItem where
  original_id : Option Int
  ai_description : Option String
  deriving Repr, DecidableEq

/-- In-place update of the element at index `i` of a list, the embedding of
mutating one Python dict held in a list (`car[k] = v`). Out-of-range
indices leave the list unchanged. -/
def modifyAt (f : α → α) : Nat → List α → List α
  | _, [] => []
  | 0, x :: xs => f x :: xs
  | j + 1, x :: xs => x :: modifyAt f j xs

/-- The default annotation used when the model item lacks
`ai_description` (source line: `item.get` with default). -/
def descrDefault : String := "Matches your search criteria."

/-- The fixed annotation appended to listings the model did not cite. -/
def descrAlsoFound : String := "Also found matching your criteria."

/-- Overwrite a listing's `ai_description` (the in-place dict write
`car['ai_description'] = d`). -/
def setDescr (d : String) (c : Listing) : Listing :=
  { c with ai_description := some d }

/-- One iteration of the first reconciliation loop of `rank_and_annotate`:
if the item's `original_id` is present and in range, annotate that listing
in the store and append its index to the output order; otherwise skip.
State is (store of capped listings, output order as store indices) —
indices model the dict aliasing of the source, where `new_ordered_list`
holds references into `cars_to_process`. -/
def step1 (st : List Listing × List Nat) (it : ModelItem) : List Listing × List Nat :=
  match it.original_id with
  | some idx =>
    if 0 ≤ idx ∧ idx < (st.1.length : Int) then
      (modifyAt (setDescr (it.ai_description.getD descrDefault)) idx.toNat st.1,
       st.2 ++ [idx.toNat])
    else st
  | none => st

/-- The first loop of `rank_and_annotate`: fold `step1` over the model's
`ranked_cars`, starting from the capped listings and an empty order. -/
def rankLoop1 (cars : List Listing) (items : List ModelItem) : List Listing × List Nat :=
  items.foldl step1 (cars, [])

/-- Whether the model response cites index `i` (`i in used_ids` in the
source, where `used_ids` collects every `original_id` value). -/
def citesIdx (items : List ModelItem) (i : Nat) : Bool :=
  items.any (fun it => it.original_id == some (i : Int))

/-- One iteration of the fallback loop of `rank_and_annotate`: listings
whose index the model never cited are annotated with the fixed fallback
text and appended in original order. -/
def step2 (items : List ModelItem) (st : List Listing × List Nat) (i : Nat) : List Listing × List Nat :=
  if citesIdx items i then st
  else (modifyAt (setDescr descrAlsoFound) i st.1, st.2 ++ [i])

/-- The fallback loop of `rank_and_annotate` (`for i, car in
enumerate(cars_to_process)`). -/
def rankFallback (items : List ModelItem) (st : List Listing × List Nat) : List Listing × List Nat :=
  (List.range st.1.length).foldl (step2 items) st

/-- The reconciliation body of `rank_and_annotate` on the capped listings:
run the model-order loop, then the fallback loop only when the output is
shorter than the capped input (`if len(new_ordered_list) <
len(cars_to_process)`). Returns (final store, output order). -/
def rankReconcile (cars : List Listing) (items : List ModelItem) : List Listing × List Nat :=
  let st1 := rankLoop1 cars items
  if st1.2.length < cars.length then rankFallback items st1 else st1

/-- The output order of the reconciliation, as indices into the capped
input. -/
def rankedPositions (cars : List Listing) (items : List ModelItem) : List Nat :=
  (rankReconcile cars items).2

/-- `CarSearchService.rank_and_annotate`. Inputs beyond the query string:
the service's `api_key` (empty string when unset), the caller's `results`
list, and the decoded result of `_call_gemini_structured` (`.error` for
any raised exception, `.ok items` for a decoded `ranked_cars` array; a
response without the key decodes to `[]`). Returns (the returned list,
the caller's `results` list after the call) — the second component
records the in-place mutation of the listing dicts shared between
`results[:15]` and `cars_to_process`. -/
def rank_and_annotate (apiKey : String) (results : List Listing)
    (client : Except Unit (List ModelItem)) : List Listing × List Listing :=
  if apiKey = "" ∨ results.isEmpty then (results, results)
  else
    match client with
    | .error _ => (results, results)
    | .ok items =>
      let cars := results.take 15
      let st2 := rankReconcile cars items
      (st2.2.map (fun i => st2.1.getD i default), st2.1 ++ results.drop 15)

/-- First index of a character in a character list (Python `str.index`,
which searches left to right; `none` when absent, where Python raises). -/
def firstIdxOf (c : Char) (s : List Char) : Option Nat :=
  s.findIdx? (· == c)

/-- Last index of a character in a character list (Python `str.rindex`;
`none` when absent, where Python raises). -/
def lastIdxOf (c : Char) (s : List Char) : Option Nat :=
  match s.reverse.findIdx? (· == c) with
  | some j => some (s.length - 1 - j)
  | none => none

/-- Python slice `s[a:b]` on a character list. -/
def pySlice (s : List Char) (a b : Nat) : List Char :=
  (s.drop a).take (b - a)

/-- The fixed fallback assessment returned by `OfferAnalysisService.analyze`
on any extraction or parse failure. -/
def fallbackAssessment : JVal :=
  JVal.obj
    [("price_position", JVal.str ("Unable to determine.")),
     ("suggested_discount_eur", JVal.num 0),
     ("justification", JVal.str ("AI returned invalid format.")),
     ("scam_risk_score", JVal.num 50),
     ("scam_reasons", JVal.arr [JVal.str ("Could not parse AI output.")]),
     ("buyer_message", JVal.str ("Desculpa — não consegui analisar a oferta."))]

/-- The JSON-extraction step of `OfferAnalysisService.analyze`: the
substring of the model response from the first `\x7b` to the last `\x7d`
inclusive, when both exist (Python `llm_response[start:end]` with
`start = index`, `end = rindex + 1`). -/
def extractJsonText (s : List Char) : Option (List Char) :=
  match firstIdxOf '{' s, lastIdxOf '}' s with
  | some a, some b => some (pySlice s a (b + 1))
  | some _, none => none
  | none, _ => none

/-- `OfferAnalysisService.analyze`, as a function of the model response
text returned by `call_gemini` and of the external JSON parser
(`json.loads`, modelled as a partial decoding function since it is
standard-library code outside this repository). Every exception path of
the source (`index`/`rindex` raising `ValueError`, `json.loads` raising)
lands in the single `except` clause returning the fallback. -/
def analyze (parse : List Char → Option JVal) (llmResponse : List Char) : JVal :=
  match extractJsonText llmResponse with
  | some jsonText =>
    match parse jsonText with
    | some data => data
    | none => fallbackAssessment
  | none => fallbackAssessment

/-- Whether a decoded JSON value is an object carrying the given key. -/
def hasKey (v : JVal) (k : String) : Bool :=
  match v with
  | JVal.obj fields => fields.any (fun kv => kv.1 == k)
  | _ => false

/-- The six keys of a fully populated OfferAssessment. -/
def assessmentKeys : List String :=
  ["price_position", "suggested_discount_eur", "justification",
   "scam_risk_score", "scam_reasons", "buyer_message"]

/-- Field list of a decoded JSON object (`[]` for non-objects). -/
def JVal.fields : JVal → List (String × JVal)
  | JVal.obj fs => fs
  | _ => []

/-- The empty filter object (`return \x7b\x7d` in `parse_query`). -/
def emptyObj : JVal := JVal.obj []

/-- `CarSearchService.parse_query`: returns the decoded filters from the
structured call, or the empty object when the key is unset or the client
raised. -/
def parse_query (apiKey : String) (client : Except Unit JVal) : JVal :=
  if apiKey = "" then emptyObj
  else
    match client with
    | .ok filters => filters
    | .error _ => emptyObj

/-- The filter-cleaning comprehension of `search_cars`
(`\x7bk: v for k, v in filters.items() if v is not None\x7d`): the
constraints a filter object actually imposes. -/
def cleanedFilters (fields : List (String × JVal)) : List (String × JVal) :=
  fields.filter (fun kv => !(kv.2 == JVal.null))

/-- Navigation outcome of the body of one structured-call response:
`notJson` when `response.json()` raises `json.JSONDecodeError`;
`emptyCandidates` when `candidates` is `[]` so the `[0]` lookup raises
`IndexError`; `textPayload t` when navigation reaches the text field
(`none` when the field is absent, defaulted to `"\x7b\x7d"`). -/
inductive StructBody where
  | notJson : StructBody
  | emptyCandidates : StructBody
  | textPayload : Option String → StructBody
  deriving Repr, DecidableEq

/-- Transport outcome of one structured-call attempt: a network-level
`requests` exception, or an HTTP response with a status code and body. -/
inductive StructOutcome where
  | netErr : StructOutcome
  | resp : Nat → StructBody → StructOutcome
  deriving Repr, DecidableEq

/-- The Python exception classes that can escape one attempt of
`attempt_call`. -/
inductive PyErr where
  | requestExc : PyErr
  | jsonDecodeExc : PyErr
  | indexErr : PyErr
  deriving Repr, DecidableEq

/-- Whether `backoff.on_exception` retries the exception: it is configured
with `(requests.exceptions.RequestException, json.JSONDecodeError)`;
`IndexError` is not in the tuple and propagates at once. -/
def retryable : PyErr → Bool
  | .requestExc => true
  | .jsonDecodeExc => true
  | .indexErr => false

/-- One attempt of `attempt_call` inside `_call_gemini_structured`:
non-200 statuses raise through `raise_for_status` (an `HTTPError`, a
`RequestException` subclass); a non-JSON body raises `JSONDecodeError`;
an empty candidate list raises `IndexError`; otherwise the text field
(defaulted to `"\x7b\x7d"`) is fed to `json.loads`, which raises
`JSONDecodeError` when it is not valid JSON. -/
def attemptOnce (parse : List Char → Option JVal) : StructOutcome → Except PyErr JVal
  | .netErr => .error .requestExc
  | .resp status body =>
    if status ≠ 200 then .error .requestExc
    else
      match body with
      | .notJson => .error .jsonDecodeExc
      | .emptyCandidates => .error .indexErr
      | .textPayload t =>
        match parse ((t.getD ("\x7b\x7d")).toList) with
        | some v => .ok v
        | none => .error .jsonDecodeExc

/-- The retry loop `backoff.on_exception(backoff.expo, ..., max_tries=5)`
wraps around `attempt_call`: run attempts sequentially (the transport
oracle maps attempt number to outcome), retrying listed exceptions while
tries remain, re-raising otherwise. Returns the final result and the
number of attempts made. The zero-tries case is unreachable from
`max_tries = 5`. -/
def runAttempts (parse : List Char → Option JVal) (transport : Nat → StructOutcome) :
    Nat → Nat → Except PyErr JVal × Nat
  | _, 0 => (.error .requestExc, 0)
  | i, 1 => (attemptOnce parse (transport i), 1)
  | i, n + 2 =>
    match attemptOnce parse (transport i) with
    | .ok v => (.ok v, 1)
    | .error e =>
      if retryable e then
        let r := runAttempts parse transport (i + 1) (n + 1)
        (r.1, r.2 + 1)
      else (.error e, 1)

/-- Errors `_call_gemini_structured` can raise to its caller. -/
inductive ClientError where
  | envError : ClientError
  | pyErr : PyErr → ClientError
  deriving Repr, DecidableEq

/-- The retry ceiling (`max_tries=5`). -/
def maxTries : Nat := 5

/-- `CarSearchService._call_gemini_structured`: raises `EnvironmentError`
when the key is unset, otherwise runs the retry loop. Returns the result
together with the number of attempts made. -/
def call_gemini_structured (apiKey : String) (parse : List Char → Option JVal)
    (transport : Nat → StructOutcome) : Except ClientError JVal × Nat :=
  if apiKey = "" then (.error .envError, 0)
  else
    let r := runAttempts parse transport 0 maxTries
    (r.1.mapError ClientError.pyErr, r.2)

/-- Modelled from the spec: the `backoff.expo` wait generator of the
external backoff library yields successive powers of two; with full
jitter each actual sleep is bounded by the generator value. These are the
bounding delays between the attempts of one call. -/
def expoWaits (tries : Nat) : List Nat :=
  (List.range (tries - 1)).map (fun k => 2 ^ k)

/-- Body navigation outcome for `utils/ai.py::call_gemini`: `notJson m`
when `resp.json()` raises (with exception text `m`); `emptyCandidates m`
when the `[0]` lookup raises `IndexError`; `textField t` when navigation
reaches the text field (`none` defaulted to `""`). -/
inductive AiBody where
  | notJson : String → AiBody
  | emptyCandidates : String → AiBody
  | textField : Option String → AiBody
  deriving Repr, DecidableEq

/-- Transport outcome for one `call_gemini` request: a raised exception
(with text), or an HTTP response with status code, raw body text, and
navigation outcome. -/
inductive AiOutcome where
  | exn : String → AiOutcome
  | resp : Nat → String → AiBody → AiOutcome
  deriving Repr, DecidableEq

/-- Leading text of every exception-path error string in `call_gemini`. -/
def geminiErrHead : String := "Gemini API error: "

/-- Sentinel for an empty model text (`text or ...`). -/
def emptySentinel : String := "Gemini returned an empty response."

/-- Error string returned when no API key is configured. -/
def missingKeyMsg : String := "Gemini API error: missing API key."

/-- `utils/ai.py::call_gemini`: the module-level `API_KEY` is
`os.getenv("GOOGLE_API_KEY")` (`none` when unset; the empty string is
falsy too); every failure path is converted to an in-band string. -/
def call_gemini (apiKey : Option String) (outcome : AiOutcome) : String :=
  if apiKey.getD "" = "" then missingKeyMsg
  else
    match outcome with
    | .exn m => geminiErrHead ++ m
    | .resp status raw body =>
      if status ≠ 200 then
        "Gemini API error (" ++ toString status ++ "): " ++ raw
      else
        match body with
        | .notJson m => geminiErrHead ++ m
        | .emptyCandidates m => geminiErrHead ++ m
        | .textField t =>
          if t.getD "" = "" then emptySentinel else t.getD ""

/-- Characterization of the first reconciliation loop's output order: the
model-cited indices that are present and in range for a capped input of
length `n`, in citation order, duplicates kept (the source performs no
deduplication in this loop). -/
def citedIdx (n : Nat) (items : List ModelItem) : List Nat :=
  items.filterMap (fun it =>
    match it.original_id with
    | some idx => if 0 ≤ idx ∧ idx < (n : Int) then some idx.toNat else none
    | none => none)

/-- Characterization of the fallback loop's appended order: the indices
below `n` the model never cited, in increasing order. -/
def missedIdx (n : Nat) (items : List ModelItem) : List Nat :=
  (List.range n).filter (fun i => !(citesIdx items i))

/-- A sample listing used in concrete scenarios. -/
def listingA : Listing := ⟨"a", 1, 2000, 10, "d", none⟩

/-- A second sample listing. -/
def listingB : Listing := ⟨"b", 2, 2001, 20, "d", none⟩

/-- A third sample listing. -/
def listingC : Listing := ⟨"c", 3, 2002, 30, "d", none⟩

/-- Sixteen identical listings, one more than the batch cap. -/
def sixteenListings : List Listing := List.replicate 16 listingA

/-- A model response text with prose around the JSON object, as in the
spec's offer-text scenario. -/
def noisyResp : List Char := ("Sure: \x7b\"price_position\":\"fair\"\x7d ok!").toList

/-- The JSON substring of `noisyResp` between its first and last brace. -/
def noisyRespJson : List Char := ("\x7b\"price_position\":\"fair\"\x7d").toList

/-- Modelled from the spec: the behaviour of the standard-library parser
`json.loads` (code outside this repository) on the single input
`noisyRespJson`, which decodes to an object with one string field. -/
def parse1 : List Char → Option JVal := fun t =>
  if t = noisyRespJson then some (JVal.obj [("price_position", JVal.str ("fair"))])
  else none

theorem modifyAt_length (f : α → α) (i : Nat) (l : List α) :
    (modifyAt f i l).length = l.length := by
  induction l generalizing i with
  | nil => cases i <;> rfl
  | cons x xs ih =>
    cases i with
    | zero => rfl
    | succ j => simp [modifyAt, ih]

theorem modifyAt_map_core (d : String) (i : Nat) (l : List Listing) :
    (modifyAt (setDescr d) i l).map Listing.core = l.map Listing.core := by
  induction l generalizing i with
  | nil => cases i <;> rfl
  | cons x xs ih =>
    cases i with
    | zero => simp [modifyAt, setDescr, Listing.core]
    | succ j => simp [modifyAt, ih]

theorem foldl_step1_spec (items : List ModelItem) :
    ∀ (cars : List Listing) (out : List Nat),
      (items.foldl step1 (cars, out)).1.length = cars.length ∧
      (items.foldl step1 (cars, out)).1.map Listing.core = cars.map Listing.core ∧
      (items.foldl step1 (cars, out)).2 = out ++ citedIdx cars.length items := by
  induction items with
  | nil => intro cars out; simp [citedIdx]
  | cons it rest ih =>
    intro cars out
    rw [List.foldl_cons]
    cases h : it.original_id with
    | none =>
      have hs : step1 (cars, out) it = (cars, out) := by simp [step1, h]
      rw [hs]
      rcases ih cars out with ⟨h1, h2, h3⟩
      refine ⟨h1, h2, ?_⟩
      rw [h3]
      simp [citedIdx, List.filterMap_cons, h]
    | some idx =>
      by_cases hr : 0 ≤ idx ∧ idx < (cars.length : Int)
      · have hs : step1 (cars, out) it =
            (modifyAt (setDescr (it.ai_description.getD descrDefault)) idx.toNat cars,
             out ++ [idx.toNat]) := by
          simp [step1, h, hr]
        rw [hs]
        rcases ih (modifyAt (setDescr (it.ai_description.getD descrDefault)) idx.toNat cars)
          (out ++ [idx.toNat]) with ⟨h1, h2, h3⟩
        refine ⟨by rw [h1, modifyAt_length], by rw [h2, modifyAt_map_core], ?_⟩
        rw [h3, modifyAt_length]
        simp [citedIdx, List.filterMap_cons, h, hr]
      · have hs : step1 (cars, out) it = (cars, out) := by simp [step1, h, hr]
        rw [hs]
        rcases ih cars out with ⟨h1, h2, h3⟩
        refine ⟨h1, h2, ?_⟩
        rw [h3]
        simp [citedIdx, List.filterMap_cons, h, hr]

theorem foldl_step2_spec (items : List ModelItem) (l : List Nat) :
    ∀ (st : List Listing × List Nat),
      ((l.foldl (step2 items) st).1.length = st.1.length ∧
       (l.foldl (step2 items) st).1.map Listing.core = st.1.map Listing.core ∧
       (l.foldl (step2 items) st).2 = st.2 ++ l.filter (fun i => !(citesIdx items i))) := by
  induction l with
  | nil => intro st; simp
  | cons i rest ih =>
    intro st
    rw [List.foldl_cons]
    by_cases hc : citesIdx items i
    · have hs : step2 items st i = st := by simp [step2, hc]
      rw [hs]
      rcases ih st with ⟨h1, h2, h3⟩
      refine ⟨h1, h2, ?_⟩
      rw [h3]
      simp [List.filter_cons, hc]
    · have hs : step2 items st i =
          (modifyAt (setDescr descrAlsoFound) i st.1, st.2 ++ [i]) := by
        simp [step2, hc]
      rw [hs]
      rcases ih (modifyAt (setDescr descrAlsoFound) i st.1, st.2 ++ [i]) with ⟨h1, h2, h3⟩
      refine ⟨by rw [h1, modifyAt_length], by rw [h2, modifyAt_map_core], ?_⟩
      rw [h3]
      simp [List.filter_cons, hc]

theorem rankReconcile_spec (cars : List Listing) (items : List ModelItem) :
    (rankReconcile cars items).1.length = cars.length ∧
    (rankReconcile cars items).1.map Listing.core = cars.map Listing.core ∧
    (rankReconcile cars items).2 =
      (if (citedIdx cars.length items).length < cars.length
       then citedIdx cars.length items ++ missedIdx cars.length items
       else citedIdx cars.length items) := by
  rcases foldl_step1_spec items cars [] with ⟨h1, h2, h3⟩
  have hout : (rankLoop1 cars items).2 = citedIdx cars.length items := by
    rw [show rankLoop1 cars items = items.foldl step1 (cars, []) from rfl, h3]
    simp
  unfold rankReconcile
  by_cases hlt : (citedIdx cars.length items).length < cars.length
  · rw [if_pos (by rw [hout]; exact hlt), if_pos hlt]
    unfold rankFallback
    rcases foldl_step2_spec items (List.range (rankLoop1 cars items).1.length)
      (rankLoop1 cars items) with ⟨g1, g2, g3⟩
    have hlen : (rankLoop1 cars items).1.length = cars.length := h1
    refine ⟨by rw [g1, hlen], by rw [g2]; exact h2, ?_⟩
    rw [g3, hout, hlen]
    rfl
  · rw [if_neg (by rw [hout]; exact hlt), if_neg hlt]
    exact ⟨h1, h2, hout⟩

theorem mem_citedIdx {n : Nat} {items : List ModelItem} {i : Nat} :
    i ∈ citedIdx n items ↔ (citesIdx items i = true ∧ i < n) := by
  constructor
  · intro hi
    rcases List.mem_filterMap.1 hi with ⟨it, hit, hf⟩
    cases h : it.original_id with
    | none => rw [h] at hf; simp at hf
    | some idx =>
      rw [h] at hf
      dsimp only at hf
      by_cases hr : 0 ≤ idx ∧ idx < (n : Int)
      · rw [if_pos hr] at hf
        have hidx : idx.toNat = i := by injection hf
        have hidxe : idx = (i : Int) := by
          rw [← hidx]; exact (Int.toNat_of_nonneg hr.1).symm
        constructor
        · apply List.any_eq_true.2
          exact ⟨it, hit, by rw [h, hidxe]; exact beq_self_eq_true _⟩
        · have : (i : Int) < (n : Int) := by rw [← hidxe]; exact hr.2
          exact_mod_cast this
      · rw [if_neg hr] at hf; simp at hf
  · rintro ⟨hc, hlt⟩
    rcases List.any_eq_true.1 hc with ⟨it, hit, hbeq⟩
    have h : it.original_id = some ((i : Nat) : Int) := eq_of_beq hbeq
    apply List.mem_filterMap.2
    refine ⟨it, hit, ?_⟩
    rw [h]
    have hr : 0 ≤ ((i : Nat) : Int) ∧ ((i : Nat) : Int) < (n : Int) := by
      constructor
      · exact Int.ofNat_nonneg i
      · exact_mod_cast hlt
    dsimp only
    rw [if_pos hr]
    simp

theorem citedIdx_subset_range {n : Nat} {items : List ModelItem} :
    citedIdx n items ⊆ List.range n := by
  intro i hi
  exact List.mem_range.2 (mem_citedIdx.1 hi).2

theorem cited_perm_filter {n : Nat} {items : List ModelItem}
    (hnd : (citedIdx n items).Nodup) :
    (citedIdx n items).Perm ((List.range n).filter (fun i => citesIdx items i)) := by
  apply List.Subperm.antisymm
  · apply hnd.subperm
    intro i hi
    rcases mem_citedIdx.1 hi with ⟨hc, hlt⟩
    exact List.mem_filter.2 ⟨List.mem_range.2 hlt, hc⟩
  · apply List.Nodup.subperm (List.Nodup.filter _ (List.nodup_range n))
    intro i hi
    rcases List.mem_filter.1 hi with ⟨hr, hc⟩
    exact mem_citedIdx.2 ⟨hc, List.mem_range.1 hr⟩

theorem positions_perm {n : Nat} {items : List ModelItem}
    (hnd : (citedIdx n items).Nodup) :
    (if (citedIdx n items).length < n
     then citedIdx n items ++ missedIdx n items
     else citedIdx n items).Perm (List.range n) := by
  by_cases hlt : (citedIdx n items).length < n
  · rw [if_pos hlt]
    have h1 := cited_perm_filter hnd
    have h2 := List.filter_append_perm (fun i => citesIdx items i) (List.range n)
    exact (h1.append_right (missedIdx n items)).trans h2
  · rw [if_neg hlt]
    apply List.Subperm.perm_of_length_le (hnd.subperm citedIdx_subset_range)
    rw [List.length_range]
    omega

theorem getD_map_core (l : List Listing) (i : Nat) :
    Listing.core (l.getD i default) = (l.map Listing.core).getD i (Listing.core default) := by
  induction l generalizing i with
  | nil => rfl
  | cons x xs ih =>
    cases i with
    | zero => rfl
    | succ j => simp only [List.getD_cons_succ, List.map_cons]; exact ih j

theorem map_getD_range (l : List α) (d : α) :
    (List.range l.length).map (fun i => l.getD i d) = l := by
  induction l with
  | nil => rfl
  | cons x xs ih =>
    rw [List.length_cons, List.range_succ_eq_map, List.map_cons, List.map_map]
    refine congrArg₂ List.cons rfl ?_
    have hcomp : List.map ((fun i => (x :: xs).getD i d) ∘ Nat.succ) (List.range xs.length)
        = List.map (fun i => xs.getD i d) (List.range xs.length) :=
      List.map_congr_left (fun i _ => rfl)
    rw [hcomp, ih]

theorem firstIdxOf_eq_none {c : Char} {s : List Char} (h : c ∉ s) :
    firstIdxOf c s = none := by
  apply List.findIdx?_eq_none_iff.2
  intro x hx
  exact beq_eq_false_iff_ne.2 (fun he => h (by rw [← he]; exact hx))

theorem lastIdxOf_eq_none {c : Char} {s : List Char} (h : c ∉ s) :
    lastIdxOf c s = none := by
  unfold lastIdxOf
  rw [List.findIdx?_eq_none_iff.2 (fun x hx => beq_eq_false_iff_ne.2
    (fun he => h (by rw [← he]; exact List.mem_reverse.1 hx)))]

/-- Claim C2: with three listings and a model response citing only indices
2 then 0 with model annotations, `rank_and_annotate` returns listing 2
with the model's text, then listing 0 with the model's text, then listing
1 with the fixed fallback annotation, of length 3 — and the caller's list
is annotated in place. -/
theorem rank_scenario_three_listings :
    rank_and_annotate ("k") [listingA, listingB, listingC]
      (.ok [⟨some 2, some "t2"⟩, ⟨some 0, some "t0"⟩]) =
    ([setDescr ("t2") listingC, setDescr ("t0") listingA, setDescr descrAlsoFound listingB],
     [setDescr ("t0") listingA, setDescr descrAlsoFound listingB, setDescr ("t2") listingC]) := by
  decide

/-- Claim C3, counterexample: on total client failure with sixteen input
listings the source returns all sixteen listings, not the first fifteen
as the claim states (`return results`, not `results[:15]`). -/
theorem rank_failure_uncapped_counterexample :
    (rank_and_annotate ("") sixteenListings (.ok [])).1 ≠ sixteenListings.take 15 := by
  intro h
  have hl := congrArg List.length h
  simp [rank_and_annotate, sixteenListings] at hl

/-- Claim C3 as amended: on total client failure (no credential, or the
structured call raises) `rank_and_annotate` returns the original listings
in full — uncapped — unannotated and in original order, and never an
empty result when the input was non-empty. -/
theorem rank_failure_fail_open (apiKey : String) (results : List Listing)
    (client : Except Unit (List ModelItem)) (e : Unit) :
    rank_and_annotate apiKey results (.error e) = (results, results) ∧
    rank_and_annotate ("") results client = (results, results) ∧
    (results ≠ [] → (rank_and_annotate apiKey results (.error e)).1 ≠ []) := by
  have h1 : rank_and_annotate apiKey results (.error e) = (results, results) := by
    unfold rank_and_annotate
    by_cases h : apiKey = "" ∨ results.isEmpty
    · rw [if_pos h]
    · rw [if_neg h]
  refine ⟨h1, ?_, ?_⟩
  · unfold rank_and_annotate
    rw [if_pos (Or.inl rfl)]
  · intro hne hceq
    rw [h1] at hceq
    exact hne hceq

theorem rank_failure_fail_open_witness :
    rank_and_annotate ("k") [listingA] (.error ()) = ([listingA], [listingA]) ∧
    (rank_and_annotate ("k") [listingA] (.error ())).1 ≠ [] :=
  ⟨(rank_failure_fail_open ("k") [listingA] (.ok []) ()).1,
   (rank_failure_fail_open ("k") [listingA] (.ok []) ()).2.2 (List.cons_ne_nil _ _)⟩

/-- Claim C9, counterexample: on the success path the source mutates the
caller's listing dicts in place (`car['ai_description'] = ...`), so the
input list is not unchanged after the call. -/
theorem rank_mutates_input_counterexample :
    (rank_and_annotate ("k") [listingA] (.ok [⟨some 0, some "x"⟩])).2 ≠ [listingA] := by
  decide

/-- Claim C9 as amended: the call never changes any field other than
`ai_description` of any listing, never reorders or resizes the caller's
list, and never touches listings beyond the 15-listing cap; but on the
success path it may overwrite `ai_description` of the capped listings in
place. -/
theorem rank_mutation_frame (apiKey : String) (results : List Listing)
    (client : Except Unit (List ModelItem)) :
    ((rank_and_annotate apiKey results client).2).map Listing.core = results.map Listing.core ∧
    ((rank_and_annotate apiKey results client).2).drop 15 = results.drop 15 := by
  unfold rank_and_annotate
  by_cases h : apiKey = "" ∨ results.isEmpty
  · rw [if_pos h]; exact ⟨rfl, rfl⟩
  · rw [if_neg h]
    cases client with
    | error e => exact ⟨rfl, rfl⟩
    | ok items =>
      dsimp only
      rcases rankReconcile_spec (results.take 15) items with ⟨h1, h2, _⟩
      constructor
      · rw [List.map_append, h2, ← List.map_append, List.take_append_drop]
      · rw [List.drop_append_eq_append_drop]
        have hA : (rankReconcile (results.take 15) items).1.drop 15 = [] :=
          List.drop_eq_nil_of_le (by rw [h1, List.length_take]; omega)
        rw [hA, List.nil_append]
        by_cases hge : 15 ≤ results.length
        · have h0 : 15 - (rankReconcile (results.take 15) items).1.length = 0 := by
            rw [h1, List.length_take]; omega
          rw [h0, List.drop_zero]
        · have hnil : results.drop 15 = [] := List.drop_eq_nil_of_le (by omega)
          rw [hnil, List.drop_nil]

/-- Claim C4: `analyze` is total by construction, and whenever the model
response contains no opening or no closing brace (so `index`/`rindex`
raises), it returns exactly the documented fallback assessment. -/
theorem analyze_fallback_on_missing_brace (parse : List Char → Option JVal)
    (s : List Char) (h : ('{' ∉ s) ∨ ('}' ∉ s)) :
    analyze parse s = fallbackAssessment := by
  rcases h with h | h
  · unfold analyze extractJsonText
    rw [firstIdxOf_eq_none h]
  · unfold analyze extractJsonText
    rw [lastIdxOf_eq_none h]
    cases firstIdxOf '{' s <;> rfl

theorem analyze_fallback_on_missing_brace_witness :
    (('{' ∉ ("no braces at all").toList) ∨ ('}' ∉ ("no braces at all").toList)) ∧
    analyze (fun _ => none) (("no braces at all").toList) = fallbackAssessment :=
  ⟨Or.inl (by decide),
   analyze_fallback_on_missing_brace (fun _ => none) (("no braces at all").toList)
     (Or.inl (by decide))⟩

/-- Claim C5: when the response has an opening brace and a later closing
brace, `analyze` extracts exactly the substring from the first opening
brace to the last closing brace inclusive, ignoring surrounding prose,
and returns the parsed object whenever that substring parses. -/
theorem analyze_brace_extraction (parse : List Char → Option JVal) (s : List Char)
    (i j : Nat) (hf : firstIdxOf '{' s = some i) (hl : lastIdxOf '}' s = some j)
    (_hij : i < j) :
    extractJsonText s = some (pySlice s i (j + 1)) ∧
    (∀ v, parse (pySlice s i (j + 1)) = some v → analyze parse s = v) := by
  have he : extractJsonText s = some (pySlice s i (j + 1)) := by
    unfold extractJsonText
    rw [hf, hl]
  refine ⟨he, ?_⟩
  intro v hv
  unfold analyze
  rw [he]
  dsimp only
  rw [hv]

theorem analyze_brace_extraction_witness :
    firstIdxOf '{' noisyResp = some 6 ∧ lastIdxOf '}' noisyResp = some 30 ∧ 6 < 30 ∧
    analyze parse1 noisyResp = JVal.obj [("price_position", JVal.str ("fair"))] :=
  ⟨by decide, by decide, by decide,
   (analyze_brace_extraction parse1 noisyResp 6 30 (by decide) (by decide) (by decide)).2
     (JVal.obj [("price_position", JVal.str ("fair"))]) (by rfl)⟩

/-- Claim C7: `parse_query` never raises, and on a missing credential or
any client failure it returns the empty filter object, which imposes no
constraint on any field (its cleaned field list is empty). -/
theorem parse_query_fail_open (apiKey : String) (client : Except Unit JVal) (e : Unit)
    (h : apiKey = "" ∨ client = .error e) :
    parse_query apiKey client = emptyObj ∧
    cleanedFilters (parse_query apiKey client).fields = [] := by
  have hq : parse_query apiKey client = emptyObj := by
    rcases h with h | h
    · unfold parse_query; rw [if_pos h]
    · unfold parse_query
      by_cases hk : apiKey = ""
      · rw [if_pos hk]
      · rw [if_neg hk, h]
  exact ⟨hq, by rw [hq]; rfl⟩

theorem parse_query_fail_open_witness :
    parse_query ("x") (.error ()) = emptyObj ∧
    cleanedFilters (parse_query ("x") (.error ())).fields = [] :=
  parse_query_fail_open ("x") (.error ()) () (Or.inr rfl)

/-- Claim C8, counterexample: a response whose JSON parses but omits
fields is returned as-is — here the result lacks `scam_risk_score`, so
not every returned assessment is fully populated. -/
theorem analyze_missing_fields_counterexample :
    hasKey (analyze parse1 noisyResp) ("scam_risk_score") = false := by
  rfl

/-- Claim C8 as amended: the result of `analyze` is either the fallback
assessment — which does carry all six fields — or the parsed object
returned verbatim; a field the model omits from a parseable object stays
omitted, the per-field fallback applies only through the total-failure
fallback. -/
theorem analyze_population_amended (parse : List Char → Option JVal) (s : List Char) :
    (assessmentKeys.all (fun k => hasKey fallbackAssessment k) = true) ∧
    (analyze parse s = fallbackAssessment ∨
     ∃ t v, extractJsonText s = some t ∧ parse t = some v ∧ analyze parse s = v) := by
  refine ⟨by decide, ?_⟩
  unfold analyze
  cases he : extractJsonText s with
  | none => exact Or.inl rfl
  | some t =>
    dsimp only
    cases hp : parse t with
    | none => exact Or.inl rfl
    | some v => exact Or.inr ⟨t, v, rfl, hp, rfl⟩

/-- Claim C10: `call_gemini` is total — every outcome (missing key, raised
exception, non-200 status, unnavigable body, empty text) yields an
in-band sentinel or error string, and otherwise the result is the model's
non-empty text. -/
theorem call_gemini_total (apiKey : Option String) (o : AiOutcome) :
    call_gemini apiKey o = missingKeyMsg ∨
    (∃ m, call_gemini apiKey o = geminiErrHead ++ m) ∨
    (∃ (st : Nat) (raw : String),
      call_gemini apiKey o = "Gemini API error (" ++ toString st ++ "): " ++ raw) ∨
    call_gemini apiKey o = emptySentinel ∨
    (∃ raw t, o = AiOutcome.resp 200 raw (AiBody.textField (some t)) ∧ t ≠ "" ∧
      call_gemini apiKey o = t) := by
  unfold call_gemini
  by_cases hk : apiKey.getD "" = ""
  · rw [if_pos hk]; exact Or.inl rfl
  · rw [if_neg hk]
    cases o with
    | exn m => exact Or.inr (Or.inl ⟨m, rfl⟩)
    | resp status raw body =>
      dsimp only
      by_cases hs : status = 200
      · subst hs
        rw [if_neg (show ¬((200 : Nat) ≠ 200) from fun hc => hc rfl)]
        cases body with
        | notJson m => exact Or.inr (Or.inl ⟨m, rfl⟩)
        | emptyCandidates m => exact Or.inr (Or.inl ⟨m, rfl⟩)
        | textField t =>
          simp only
          cases t with
          | none => exact Or.inr (Or.inr (Or.inr (Or.inl (if_pos rfl))))
          | some tv =>
            by_cases ht : tv = ""
            · subst ht
              exact Or.inr (Or.inr (Or.inr (Or.inl (if_pos rfl))))
            · rw [if_neg (show ¬((some tv).getD "" = "") from ht)]
              exact Or.inr (Or.inr (Or.inr (Or.inr ⟨raw, tv, rfl, ht, rfl⟩)))
      · rw [if_pos hs]
        exact Or.inr (Or.inr (Or.inl ⟨status, raw, rfl⟩))

theorem runAttempts_one (parse : List Char → Option JVal) (transport : Nat → StructOutcome)
    (i : Nat) :
    runAttempts parse transport i 1 = (attemptOnce parse (transport i), 1) := by
  rfl

theorem runAttempts_succ (parse : List Char → Option JVal) (transport : Nat → StructOutcome)
    (i m : Nat) :
    runAttempts parse transport i (m + 2) =
      (match attemptOnce parse (transport i) with
       | .ok v => (.ok v, 1)
       | .error e =>
         if retryable e then
           ((runAttempts parse transport (i + 1) (m + 1)).1,
            (runAttempts parse transport (i + 1) (m + 1)).2 + 1)
         else (.error e, 1)) := by
  rfl

theorem runAttempts_all_fail (parse : List Char → Option JVal)
    (transport : Nat → StructOutcome)
    (hfail : ∀ a, ∃ e, attemptOnce parse (transport a) = .error e ∧ retryable e = true) :
    ∀ n i, (runAttempts parse transport i (n + 1)).2 = n + 1 ∧
      ∃ e, (runAttempts parse transport i (n + 1)).1 = .error e ∧ retryable e = true := by
  intro n
  induction n with
  | zero =>
    intro i
    rcases hfail i with ⟨e, he, hr⟩
    rw [runAttempts_one]
    exact ⟨rfl, e, he, hr⟩
  | succ m ih =>
    intro i
    rcases hfail i with ⟨e, he, hr⟩
    rcases ih (i + 1) with ⟨ih1, e', he', hr'⟩
    rw [show m + 1 + 1 = m + 2 from rfl, runAttempts_succ, he]
    dsimp only
    rw [if_pos hr]
    exact ⟨by rw [ih1], e', he', hr'⟩

/-- Claim C6: when every attempt fails with a retried exception class
(network failure, non-200 status, or a malformed/non-JSON body), the
structured call makes exactly `maxTries = 5` attempts and then fails with
the remote error instead of looping; the backoff policy's wait bounds
between those attempts are the exponential sequence. -/
theorem structured_call_retry_bound (apiKey : String) (parse : List Char → Option JVal)
    (transport : Nat → StructOutcome)
    (hk : apiKey ≠ "")
    (hfail : ∀ a, ∃ e, attemptOnce parse (transport a) = .error e ∧ retryable e = true) :
    (call_gemini_structured apiKey parse transport).2 = 5 ∧
    (∃ e, (call_gemini_structured apiKey parse transport).1 =
      .error (ClientError.pyErr e) ∧ retryable e = true) ∧
    expoWaits maxTries = [1, 2, 4, 8] := by
  rcases runAttempts_all_fail parse transport hfail 4 0 with ⟨hc, e, he, hr⟩
  unfold call_gemini_structured
  rw [if_neg hk]
  dsimp only
  refine ⟨hc, ⟨e, ?_, hr⟩, by decide⟩
  rw [show maxTries = 4 + 1 from rfl, he]
  rfl

theorem structured_call_retry_bound_witness :
    (call_gemini_structured ("k") (fun _ => none) (fun _ => .resp 200 (.notJson))).2 = 5 ∧
    (∃ e, (call_gemini_structured ("k") (fun _ => none)
      (fun _ => .resp 200 (.notJson))).1 = .error (ClientError.pyErr e) ∧
      retryable e = true) ∧
    expoWaits maxTries = [1, 2, 4, 8] :=
  structured_call_retry_bound ("k") (fun _ => none) (fun _ => .resp 200 (.notJson))
    (by decide) (fun _ => ⟨.jsonDecodeExc, rfl, rfl⟩)

/-- Claim C1, counterexample: with one listing and a model response citing
index 0 twice, the source appends the listing twice (the first loop never
checks whether an index was already used), so the output length is 2, not
`min 1 15 = 1` — the listing is duplicated, violating the exactly-once
invariant as stated. -/
theorem rank_duplicate_counterexample :
    (rank_and_annotate ("k") [listingA]
      (.ok [⟨some 0, some "x"⟩, ⟨some 0, some "y"⟩])).1.length ≠
    min ([listingA] : List Listing).length 15 := by
  decide

/-- Claim C1 as amended: provided the model's in-range cited indices are
pairwise distinct (out-of-range indices, absent ids, and citing only a
subset remain arbitrary), `rank_and_annotate` returns a sequence of
length `min (len results) 15` whose positions over the capped input are a
permutation of all capped positions — each capped listing appears exactly
once (up to its new annotation), none added, duplicated, or dropped. With
duplicate in-range citations the source violates this, as the
counterexample shows. -/
theorem rank_reconcile_exactly_once (apiKey : String) (results : List Listing)
    (items : List ModelItem)
    (hk : apiKey ≠ "")
    (hnd : (citedIdx (results.take 15).length items).Nodup) :
    (rank_and_annotate apiKey results (.ok items)).1.length = min results.length 15 ∧
    (rankedPositions (results.take 15) items).Perm (List.range (results.take 15).length) ∧
    ((rank_and_annotate apiKey results (.ok items)).1.map Listing.core).Perm
      ((results.take 15).map Listing.core) := by
  rcases rankReconcile_spec (results.take 15) items with ⟨h1, h2, h3⟩
  have hpos : ((rankReconcile (results.take 15) items).2).Perm
      (List.range (results.take 15).length) := by
    rw [h3]
    exact positions_perm hnd
  by_cases hemp : results.isEmpty
  · have hnil : results = [] := List.isEmpty_iff.1 hemp
    subst hnil
    refine ⟨?_, hpos, ?_⟩
    · simp [rank_and_annotate]
    · simp [rank_and_annotate]
  · have hguard : ¬(apiKey = "" ∨ results.isEmpty = true) := by
      rintro (h | h)
      · exact hk h
      · exact hemp h
    have hplen : (rankReconcile (results.take 15) items).2.length =
        (results.take 15).length := by
      have hpl := hpos.length_eq
      rw [List.length_range] at hpl
      exact hpl
    unfold rank_and_annotate
    rw [if_neg hguard]
    dsimp only
    refine ⟨?_, hpos, ?_⟩
    · rw [List.length_map, hplen, List.length_take, Nat.min_comm]
    · rw [List.map_map]
      have hfun : ((rankReconcile (results.take 15) items).2).map
            (Listing.core ∘ fun i => (rankReconcile (results.take 15) items).1.getD i default) =
          ((rankReconcile (results.take 15) items).2).map
            (fun i => ((results.take 15).map Listing.core).getD i (Listing.core default)) := by
        apply List.map_congr_left
        intro i _
        show Listing.core ((rankReconcile (results.take 15) items).1.getD i default) = _
        rw [getD_map_core, h2]
      rw [hfun]
      have hperm := hpos.map
        (fun i => ((results.take 15).map Listing.core).getD i (Listing.core default))
      have hre : (List.range (results.take 15).length).map
            (fun i => ((results.take 15).map Listing.core).getD i (Listing.core default)) =
          (results.take 15).map Listing.core := by
        have hl : (results.take 15).length = ((results.take 15).map Listing.core).length := by
          rw [List.length_map]
        rw [hl]
        exact map_getD_range _ _
      rw [hre] at hperm
      exact hperm

theorem rank_reconcile_exactly_once_witness :
    (rank_and_annotate ("k") [listingA, listingB, listingC]
      (.ok [⟨some 2, some "t2"⟩, ⟨some 0, some "t0"⟩])).1.length =
      min ([listingA, listingB, listingC] : List Listing).length 15 ∧
    (rankedPositions (([listingA, listingB, listingC] : List Listing).take 15)
      [⟨some 2, some "t2"⟩, ⟨some 0, some "t0"⟩]).Perm
      (List.range (([listingA, listingB, listingC] : List Listing).take 15).length) :=
  ⟨(rank_reconcile_exactly_once ("k") [listingA, listingB, listingC]
      [⟨some 2, some "t2"⟩, ⟨some 0, some "t0"⟩] (by decide) (by decide)).1,
   (rank_reconcile_exactly_once ("k") [listingA, listingB, listingC]
      [⟨some 2, some "t2"⟩, ⟨some 0, some "t0"⟩] (by decide) (by decide)).2.1⟩
